import Mathlib

/-!
# Verification of the fixed-size thread pool (src/lib.rs)

Shallow embedding of the Rust thread-pool library:

* `ThreadPool` with `workers : Vec<Worker>` and `sender : Option<mpsc::Sender<Job>>`;
* `ThreadPool::new(size)` asserting `size > 0`, building one channel, wrapping the
  receiver in `Arc<Mutex<_>>` and spawning `size` workers with ids `0..size`;
* `ThreadPool::execute` boxing the job and sending it through the sender
  (`self.sender.as_ref().unwrap().send(job).unwrap()`);
* `Drop for ThreadPool` taking and dropping the sender, then iterating over the
  workers, printing a message, taking the optional thread handle and joining it
  (`thread.join().unwrap()`);
* `Worker::new` spawning a thread that loops
  `let message = receiver.lock().unwrap().recv();` — the mutex guard is a
  temporary of the `let` statement, released before the `match` on `message` —
  and then either runs the job (`Ok`) or breaks (`Err`).

The embedding has two layers.

The first layer is a functional model of the sequential operations
(`ThreadPool.new`, `ThreadPool.execute`, the body of `drop`).  Jobs are
identified by natural numbers (a job is opaque — a boxed closure — so only its
identity matters), panics are modelled as `Except.error` / an `Option String`
message, and the body of `drop` additionally produces the list of events it
performs (dropping the sender, printing, calling join) so that the ordering of
those effects can be stated.

The second layer (further below) is a labelled small-step semantics of the whole
concurrent system — queue, mutex, worker threads and the dropping thread — used
for the interleaving-dependent properties: exactly-once execution with complete
drain, the lock never being held while a job runs, and the shape of the worker
loop.
-/

namespace ThreadPoolVerif

/-- A thread's join handle.  The only observable the `drop` code extracts from
it is whether `join()` returns `Ok` or `Err`, i.e. whether the thread panicked;
`panicked` records that outcome. -/
structure JoinHandle where
  panicked : Bool
deriving DecidableEq, Repr

/-- `join` on a handle: `Err` exactly when the thread panicked. -/
def JoinHandle.join (h : JoinHandle) : Except String Unit :=
  if h.panicked then Except.error "worker thread panicked" else Except.ok ()

/-- The `Worker` struct: `id: usize` and `thread: Option<JoinHandle<()>>`.
`receiver` records the identity of the `Arc<Mutex<mpsc::Receiver<Job>>>` clone
captured by the spawned thread's closure (part of the thread's state in the
source even though it is not a struct field): two workers share the receiving
endpoint exactly when their `receiver` values are equal. -/
structure Worker where
  id : Nat
  receiver : Nat
  thread : Option JoinHandle
deriving DecidableEq, Repr

/-- `Worker::new(id, receiver)`: spawns one (initially live, non-panicked)
thread holding the given receiver clone and stores the handle as `Some`. -/
def Worker.new (id : Nat) (receiver : Nat) : Worker :=
  { id := id, receiver := receiver, thread := some { panicked := false } }

/-- The `ThreadPool` struct: the worker vector and the optional sender.  The
sender carries no data, so its presence is `Option Unit`. -/
structure ThreadPool where
  workers : List Worker
  sender : Option Unit
deriving DecidableEq, Repr

/-- `ThreadPool::new(size)`: `assert!(size > 0)` (modelled as the `error`
branch), then one channel is created, its receiver is wrapped in
`Arc::new(Mutex::new(receiver))` — the single shared endpoint, given identity
`0` — and for `id in 0..size` a worker is spawned on `Arc::clone` of it. -/
def ThreadPool.new (size : Nat) : Except String ThreadPool :=
  if size > 0 then
    Except.ok { workers := (List.range size).map (fun id => Worker.new id 0),
                sender := some () }
  else
    Except.error "assertion failed: size > 0"

/-- The state of the mpsc channel seen from the sending side: the queue of
pending (sent, not yet received) jobs, and whether the receiving endpoint is
still alive (`send` fails once every receiver is gone). -/
structure Channel where
  queue : List Nat
  receiverAlive : Bool
deriving DecidableEq, Repr

/-- Result of a call to `execute`: the pool and channel afterwards, plus the
panic message if the call panicked (`None` = returned normally). -/
structure ExecResult where
  pool : ThreadPool
  chan : Channel
  panicMsg : Option String
deriving DecidableEq, Repr

/-- `ThreadPool::execute`: `self.sender.as_ref().unwrap().send(job).unwrap()`.
If the sender has been taken (`None`), the first `unwrap` panics and nothing is
sent; if the receiver is gone, `send` returns `Err` and the second `unwrap`
panics; otherwise the boxed job is appended to the channel's queue.  `execute`
takes `&self`, so the pool itself is never modified. -/
def ThreadPool.execute (p : ThreadPool) (ch : Channel) (job : Nat) : ExecResult :=
  match p.sender with
  | none =>
      { pool := p, chan := ch,
        panicMsg := some "called Option::unwrap on a None value" }
  | some _ =>
      if ch.receiverAlive then
        { pool := p, chan := { ch with queue := ch.queue ++ [job] }, panicMsg := none }
      else
        { pool := p, chan := ch, panicMsg := some "sending on a closed channel" }

/-- Observable events performed by the body of `Drop for ThreadPool`, in
program order: dropping the taken sender, the `println!` per worker, and a
`join` call on a worker's thread. -/
inductive DropEvent where
  | dropSender
  | printShutdown (id : Nat)
  | joinThread (id : Nat)
deriving DecidableEq, Repr

/-- The ids of the `joinThread` events of a trace. -/
def joinIds (events : List DropEvent) : List Nat :=
  events.filterMap fun e =>
    match e with
    | DropEvent.joinThread i => some i
    | _ => none

/-- The `for worker in &mut self.workers` loop of `drop`: print, then
`if let Some(thread) = worker.thread.take() { thread.join().unwrap() }`.
Returns the events performed and either the updated worker list or the panic
raised by `unwrap` when a join fails — in which case the loop stops and the
remaining workers are not visited. -/
def dropLoop : List Worker → List DropEvent × Except String (List Worker)
  | [] => ([], Except.ok [])
  | w :: ws =>
    match w.thread with
    | none =>
        let r := dropLoop ws
        (DropEvent.printShutdown w.id :: r.1, r.2.map (fun l => w :: l))
    | some h =>
        match h.join with
        | Except.error e =>
            ([DropEvent.printShutdown w.id, DropEvent.joinThread w.id], Except.error e)
        | Except.ok _ =>
            let r := dropLoop ws
            (DropEvent.printShutdown w.id :: DropEvent.joinThread w.id :: r.1,
             r.2.map (fun l => { w with thread := none } :: l))

/-- The body of `Drop for ThreadPool::drop`: first `drop(self.sender.take())`,
then the join loop over the workers in vector order. -/
def ThreadPool.dropPool (p : ThreadPool) : List DropEvent × Except String ThreadPool :=
  let r := dropLoop p.workers
  (DropEvent.dropSender :: r.1,
   r.2.map (fun ws => { workers := ws, sender := none }))

/-! ## Lemmas about the drop loop -/

/-- Unfolding `dropLoop` at a worker whose handle was already taken. -/
theorem dropLoop_cons_none (w : Worker) (t : List Worker) (hw : w.thread = none) :
    dropLoop (w :: t)
      = (DropEvent.printShutdown w.id :: (dropLoop t).1,
         (dropLoop t).2.map (fun l => w :: l)) := by
  simp [dropLoop, hw]

/-- Unfolding `dropLoop` at a worker whose thread panicked: the `unwrap` on the
failed join panics and the loop stops. -/
theorem dropLoop_cons_panicked (w : Worker) (t : List Worker) (hd : JoinHandle)
    (hw : w.thread = some hd) (hp : hd.panicked = true) :
    dropLoop (w :: t)
      = ([DropEvent.printShutdown w.id, DropEvent.joinThread w.id],
         Except.error "worker thread panicked") := by
  simp [dropLoop, hw, JoinHandle.join, hp]

/-- Unfolding `dropLoop` at a worker whose thread is live: join succeeds, the
handle is left `None`, and the loop continues. -/
theorem dropLoop_cons_live (w : Worker) (t : List Worker) (hd : JoinHandle)
    (hw : w.thread = some hd) (hp : hd.panicked = false) :
    dropLoop (w :: t)
      = (DropEvent.printShutdown w.id :: DropEvent.joinThread w.id :: (dropLoop t).1,
         (dropLoop t).2.map (fun l => { w with thread := none } :: l)) := by
  simp [dropLoop, hw, JoinHandle.join, hp]

/-- A successful pass of the join loop keeps the worker count and ids, and
leaves every thread handle extracted (`None`). -/
theorem dropLoop_ok (ws ws' : List Worker) (h : (dropLoop ws).2 = Except.ok ws') :
    ws'.length = ws.length ∧ ws'.map Worker.id = ws.map Worker.id ∧
      ∀ w ∈ ws', w.thread = none := by
  induction ws generalizing ws' with
  | nil =>
    simp only [dropLoop] at h
    cases h
    simp
  | cons w t ih =>
    rcases hw : w.thread with _ | hd
    · rw [dropLoop_cons_none w t hw] at h
      rcases h2 : (dropLoop t).2 with e | ws₂ <;> rw [h2] at h
      · simp [Except.map] at h
      · simp only [Except.map] at h
        cases h
        rcases ih ws₂ h2 with ⟨hl, hi, hn⟩
        refine ⟨by simp [hl], by simp [hi], ?_⟩
        intro u hu
        rcases List.mem_cons.mp hu with h | h
        · rw [h]; exact hw
        · exact hn u h
    · rcases hd with ⟨b⟩
      cases b with
      | true =>
        rw [dropLoop_cons_panicked w t _ hw rfl] at h
        simp at h
      | false =>
        rw [dropLoop_cons_live w t _ hw rfl] at h
        rcases h2 : (dropLoop t).2 with e | ws₂ <;> rw [h2] at h
        · simp [Except.map] at h
        · simp only [Except.map] at h
          cases h
          rcases ih ws₂ h2 with ⟨hl, hi, hn⟩
          refine ⟨by simp [hl], by simp [hi], ?_⟩
          intro u hu
          rcases List.mem_cons.mp hu with h | h
          · rw [h]
          · exact hn u h

/-- On a worker list whose handles have all been taken already, the join loop
performs only the `println!` calls: no joins, no panics, no change. -/
theorem dropLoop_all_none (ws : List Worker) (h : ∀ w ∈ ws, w.thread = none) :
    dropLoop ws = (ws.map (fun w => DropEvent.printShutdown w.id), Except.ok ws) := by
  induction ws with
  | nil => simp [dropLoop]
  | cons w t ih =>
    have hw : w.thread = none := h w (List.mem_cons_self w t)
    have ht : ∀ u ∈ t, u.thread = none := fun u hu => h u (List.mem_cons_of_mem w hu)
    rw [dropLoop_cons_none w t hw, ih ht]
    simp [Except.map]

/-- `joinIds` ignores the print events. -/
theorem joinIds_print_cons (i : Nat) (es : List DropEvent) :
    joinIds (DropEvent.printShutdown i :: es) = joinIds es := by
  simp [joinIds]

/-- `joinIds` records the join events. -/
theorem joinIds_join_cons (i : Nat) (es : List DropEvent) :
    joinIds (DropEvent.joinThread i :: es) = i :: joinIds es := by
  simp [joinIds]

/-- When the join loop completes, it has joined exactly the workers whose
handle was present, once each, in list order. -/
theorem dropLoop_joinIds_ok (ws ws' : List Worker) (h : (dropLoop ws).2 = Except.ok ws') :
    joinIds (dropLoop ws).1
      = (ws.filter (fun w => w.thread.isSome)).map Worker.id := by
  induction ws generalizing ws' with
  | nil => simp [dropLoop, joinIds]
  | cons w t ih =>
    rcases hw : w.thread with _ | hd
    · rw [dropLoop_cons_none w t hw] at h ⊢
      rcases h2 : (dropLoop t).2 with e | ws₂ <;> rw [h2] at h
      · simp [Except.map] at h
      · rw [joinIds_print_cons, ih ws₂ h2]
        simp [List.filter_cons, hw]
    · rcases hd with ⟨b⟩
      cases b with
      | true =>
        rw [dropLoop_cons_panicked w t _ hw rfl] at h
        simp at h
      | false =>
        rw [dropLoop_cons_live w t _ hw rfl] at h ⊢
        rcases h2 : (dropLoop t).2 with e | ws₂ <;> rw [h2] at h
        · simp [Except.map] at h
        · rw [joinIds_print_cons, joinIds_join_cons, ih ws₂ h2]
          simp [List.filter_cons, hw]

/-- The ids the join loop joins are always (also when a join panics midway) an
in-order selection of the worker ids. -/
theorem dropLoop_joinIds_sublist (ws : List Worker) :
    (joinIds (dropLoop ws).1).Sublist (ws.map Worker.id) := by
  induction ws with
  | nil => simp [dropLoop, joinIds]
  | cons w t ih =>
    rcases hw : w.thread with _ | hd
    · rw [dropLoop_cons_none w t hw, joinIds_print_cons, List.map_cons]
      exact ih.cons w.id
    · rcases hd with ⟨b⟩
      cases b with
      | true =>
        rw [dropLoop_cons_panicked w t _ hw rfl, joinIds_print_cons, joinIds_join_cons,
          List.map_cons]
        have h0 : joinIds ([] : List DropEvent) = [] := by simp [joinIds]
        rw [h0]
        exact (List.nil_sublist _).cons₂ w.id
      | false =>
        rw [dropLoop_cons_live w t _ hw rfl, joinIds_print_cons, joinIds_join_cons,
          List.map_cons]
        exact ih.cons₂ w.id

/-- The join loop never emits the sender-drop event. -/
theorem dropSender_not_mem_dropLoop (ws : List Worker) :
    DropEvent.dropSender ∉ (dropLoop ws).1 := by
  induction ws with
  | nil => simp [dropLoop]
  | cons w t ih =>
    rcases hw : w.thread with _ | hd
    · rw [dropLoop_cons_none w t hw]
      intro hmem
      rcases List.mem_cons.mp hmem with h | h
      · cases h
      · exact ih h
    · rcases hd with ⟨b⟩
      cases b with
      | true =>
        rw [dropLoop_cons_panicked w t _ hw rfl]
        intro hmem
        rcases List.mem_cons.mp hmem with h | h
        · cases h
        · rcases List.mem_cons.mp h with h | h
          · cases h
          · cases h
      | false =>
        rw [dropLoop_cons_live w t _ hw rfl]
        intro hmem
        rcases List.mem_cons.mp hmem with h | h
        · cases h
        · rcases List.mem_cons.mp h with h | h
          · cases h
          · exact ih h

/-- `execute` never mutates the pool (it takes `&self`). -/
theorem execute_pool_eq (p : ThreadPool) (ch : Channel) (job : Nat) :
    (p.execute ch job).pool = p := by
  unfold ThreadPool.execute
  split
  · rfl
  · split <;> rfl

/-- Splitting a successful `dropPool`: the join loop succeeded and the
resulting pool is its worker list with the sender gone. -/
theorem dropPool_ok (p p2 : ThreadPool)
    (h : (ThreadPool.dropPool p).2 = Except.ok p2) :
    ∃ ws', (dropLoop p.workers).2 = Except.ok ws'
      ∧ p2 = { workers := ws', sender := none } := by
  simp only [ThreadPool.dropPool] at h
  rcases hl : (dropLoop p.workers).2 with e | ws' <;> rw [hl] at h
  · simp [Except.map] at h
  · simp only [Except.map] at h
    cases h
    exact ⟨ws', rfl, rfl⟩

/-- The print events contribute no join ids. -/
theorem joinIds_print_map (ws : List Worker) :
    joinIds (ws.map (fun w => DropEvent.printShutdown w.id)) = [] := by
  induction ws with
  | nil => simp [joinIds]
  | cons w t ih => rw [List.map_cons, joinIds_print_cons, ih]

/-! ## Claims about construction and submission -/

/-- C7: `ThreadPool::new(size)` hits `assert!(size > 0)` and aborts when
`size = 0`, returning no pool (hence no workers, no partial pool); for every
positive size the assertion passes and construction returns a pool. -/
theorem new_zero_fatal_positive_succeeds :
    ThreadPool.new 0 = Except.error "assertion failed: size > 0" ∧
    ∀ size : Nat, 0 < size → ∃ p, ThreadPool.new size = Except.ok p := by
  constructor
  · rfl
  · intro size h
    exact ⟨{ workers := (List.range size).map (fun id => Worker.new id 0),
             sender := some () }, by simp [ThreadPool.new, h]⟩

/-- Witness for `new_zero_fatal_positive_succeeds`: the positive case at 3. -/
theorem new_zero_fatal_positive_succeeds_witness :
    0 < 3 ∧ ∃ p, ThreadPool.new 3 = Except.ok p :=
  ⟨by decide, new_zero_fatal_positive_succeeds.2 3 (by decide)⟩

/-- C8: for every positive `size`, construction yields exactly `size` workers
with ids `0, 1, ..., size-1` stored in ascending order, all sharing the one
`Arc<Mutex<mpsc::Receiver<Job>>>` endpoint (identity `0`); `execute` leaves the
worker vector untouched and a completed teardown keeps the worker count. -/
theorem new_spawns_ascending_workers_shared_receiver (size : Nat) (h : 0 < size) :
    ∃ p, ThreadPool.new size = Except.ok p ∧
      p.workers.length = size ∧
      p.workers.map Worker.id = List.range size ∧
      (∀ w ∈ p.workers, w.receiver = 0) ∧
      (∀ ch job, (p.execute ch job).pool.workers = p.workers) ∧
      (∀ p2, (ThreadPool.dropPool p).2 = Except.ok p2 →
        p2.workers.length = p.workers.length) := by
  refine ⟨{ workers := (List.range size).map (fun id => Worker.new id 0),
            sender := some () }, by simp [ThreadPool.new, h], by simp, ?_, ?_, ?_, ?_⟩
  · have hcomp : (Worker.id ∘ fun id => Worker.new id 0) = id := rfl
    rw [List.map_map, hcomp, List.map_id]
  · intro w hw
    rcases List.mem_map.mp hw with ⟨i, _, rfl⟩
    rfl
  · intro ch job
    rw [execute_pool_eq]
  · intro p2 h2
    rcases dropPool_ok _ p2 h2 with ⟨ws', hws, rfl⟩
    exact (dropLoop_ok _ _ hws).1

/-- Witness for `new_spawns_ascending_workers_shared_receiver` at size 4. -/
theorem new_spawns_ascending_workers_shared_receiver_witness :
    0 < 4 ∧ ∃ p, ThreadPool.new 4 = Except.ok p ∧
      p.workers.length = 4 ∧
      p.workers.map Worker.id = List.range 4 ∧
      (∀ w ∈ p.workers, w.receiver = 0) ∧
      (∀ ch job, (p.execute ch job).pool.workers = p.workers) ∧
      (∀ p2, (ThreadPool.dropPool p).2 = Except.ok p2 →
        p2.workers.length = p.workers.length) :=
  ⟨by decide, new_spawns_ascending_workers_shared_receiver 4 (by decide)⟩

/-- C5: once the sending endpoint has been taken (`sender = None`, teardown has
begun), `execute` panics on the first `unwrap` — the failure reaches the
caller, it is not swallowed — and the job is never enqueued on the channel, so
no worker can ever dequeue and run it; the pool is untouched. -/
theorem execute_after_shutdown_fails (p : ThreadPool) (ch : Channel) (job : Nat)
    (h : p.sender = none) :
    (p.execute ch job).panicMsg = some "called Option::unwrap on a None value" ∧
    (p.execute ch job).chan = ch ∧
    (p.execute ch job).pool = p := by
  unfold ThreadPool.execute
  rw [h]
  exact ⟨rfl, rfl, rfl⟩

/-- A pool whose teardown has begun: the sender is gone. -/
def closedPool : ThreadPool :=
  { workers := [Worker.new 0 0], sender := none }

/-- Witness for `execute_after_shutdown_fails` on `closedPool`, job 5. -/
theorem execute_after_shutdown_fails_witness :
    closedPool.sender = none ∧
    ((closedPool.execute { queue := [], receiverAlive := true } 5).panicMsg
        = some "called Option::unwrap on a None value" ∧
      (closedPool.execute { queue := [], receiverAlive := true } 5).chan
        = { queue := [], receiverAlive := true } ∧
      (closedPool.execute { queue := [], receiverAlive := true } 5).pool
        = closedPool) :=
  ⟨rfl, execute_after_shutdown_fails closedPool { queue := [], receiverAlive := true } 5 rfl⟩

/-- C10: a normally-returning call to `execute` has enqueuing the one boxed job
as its only effect: the worker vector (hence its length, every id and every
thread handle) and the presence of the sender are exactly as before, and the
channel's queue has gained exactly the one job at its back. -/
theorem execute_frame (p : ThreadPool) (ch : Channel) (job : Nat)
    (h : (p.execute ch job).panicMsg = none) :
    (p.execute ch job).pool.workers = p.workers ∧
    (p.execute ch job).pool.sender = p.sender ∧
    (p.execute ch job).chan.queue = ch.queue ++ [job] ∧
    (p.execute ch job).chan.receiverAlive = ch.receiverAlive := by
  rcases hs : p.sender with _ | u
  · simp [ThreadPool.execute, hs] at h
  · by_cases hra : ch.receiverAlive = true
    · refine ⟨?_, ?_, ?_, ?_⟩ <;> simp [ThreadPool.execute, hs, hra]
    · simp [ThreadPool.execute, hs, hra] at h

/-- A live pool of one worker, as built by `new(1)`. -/
def livePool1 : ThreadPool :=
  { workers := [Worker.new 0 0], sender := some () }

/-- Witness for `execute_frame`: `livePool1`, an empty live channel, job 7. -/
theorem execute_frame_witness :
    (livePool1.execute { queue := [], receiverAlive := true } 7).panicMsg = none ∧
    ((livePool1.execute { queue := [], receiverAlive := true } 7).pool.workers
        = livePool1.workers ∧
      (livePool1.execute { queue := [], receiverAlive := true } 7).pool.sender
        = livePool1.sender ∧
      (livePool1.execute { queue := [], receiverAlive := true } 7).chan.queue
        = [] ++ [7] ∧
      (livePool1.execute { queue := [], receiverAlive := true } 7).chan.receiverAlive
        = true) :=
  ⟨rfl, execute_frame livePool1 { queue := [], receiverAlive := true } 7 rfl⟩

/-! ## Claims about teardown -/

/-- C3: the first effect of teardown is taking and dropping the sender — it
heads the event trace and never recurs, so it precedes every join — and the
joins that follow are in ascending worker-id order (the hypothesis, strictly
ascending stored ids, holds for every pool built by `new`, which stores ids
`0..size` in order and never reorders them).  The resulting pool has no
sender. -/
theorem dropPool_sender_first_joins_ascending (p : ThreadPool)
    (h : (p.workers.map Worker.id).Pairwise (fun a b => a < b)) :
    ∃ es, (ThreadPool.dropPool p).1 = DropEvent.dropSender :: es ∧
      DropEvent.dropSender ∉ es ∧
      (joinIds es).Pairwise (fun a b => a < b) ∧
      ∀ p2, (ThreadPool.dropPool p).2 = Except.ok p2 → p2.sender = none := by
  refine ⟨(dropLoop p.workers).1, rfl, dropSender_not_mem_dropLoop p.workers, ?_, ?_⟩
  · exact List.Pairwise.sublist (dropLoop_joinIds_sublist p.workers) h
  · intro p2 h2
    rcases dropPool_ok p p2 h2 with ⟨ws', _, rfl⟩
    rfl

/-- A live pool of two workers, as built by `new(2)`. -/
def livePool2 : ThreadPool :=
  { workers := [Worker.new 0 0, Worker.new 1 0], sender := some () }

/-- Witness for `dropPool_sender_first_joins_ascending` on `livePool2`. -/
theorem dropPool_sender_first_joins_ascending_witness :
    (livePool2.workers.map Worker.id).Pairwise (fun a b => a < b) ∧
    ∃ es, (ThreadPool.dropPool livePool2).1 = DropEvent.dropSender :: es ∧
      DropEvent.dropSender ∉ es ∧
      (joinIds es).Pairwise (fun a b => a < b) ∧
      ∀ p2, (ThreadPool.dropPool livePool2).2 = Except.ok p2 → p2.sender = none :=
  ⟨by decide, dropPool_sender_first_joins_ascending livePool2 (by decide)⟩

/-- C6: a completed teardown joins exactly the workers whose optional handle
was still present — once each, in storage order —, leaves every handle slot
`None`, and a second teardown of the resulting pool is a no-op: it performs no
join and returns the pool unchanged. -/
theorem dropPool_take_once_idempotent (p p2 : ThreadPool)
    (h : (ThreadPool.dropPool p).2 = Except.ok p2) :
    joinIds (ThreadPool.dropPool p).1
        = (p.workers.filter (fun w => w.thread.isSome)).map Worker.id ∧
    (∀ w ∈ p2.workers, w.thread = none) ∧
    joinIds (ThreadPool.dropPool p2).1 = [] ∧
    (ThreadPool.dropPool p2).2 = Except.ok p2 := by
  rcases dropPool_ok p p2 h with ⟨ws', hws, rfl⟩
  have hnone : ∀ w ∈ ws', w.thread = none := (dropLoop_ok _ _ hws).2.2
  have hall := dropLoop_all_none ws' hnone
  refine ⟨?_, hnone, ?_, ?_⟩
  · have hdp : joinIds (ThreadPool.dropPool p).1 = joinIds (dropLoop p.workers).1 := by
      simp [ThreadPool.dropPool, joinIds]
    rw [hdp, dropLoop_joinIds_ok p.workers ws' hws]
  · simp [ThreadPool.dropPool, hall, joinIds_print_map, joinIds]
  · simp [ThreadPool.dropPool, hall, Except.map]

/-- Witness for `dropPool_take_once_idempotent`: dropping `livePool1`. -/
theorem dropPool_take_once_idempotent_witness :
    (ThreadPool.dropPool livePool1).2
        = Except.ok { workers := [{ id := 0, receiver := 0, thread := none }],
                      sender := none } ∧
    (joinIds (ThreadPool.dropPool livePool1).1
        = (livePool1.workers.filter (fun w => w.thread.isSome)).map Worker.id ∧
      (∀ w ∈ ({ workers := [{ id := 0, receiver := 0, thread := none }],
                sender := none } : ThreadPool).workers, w.thread = none) ∧
      joinIds (ThreadPool.dropPool
          { workers := [{ id := 0, receiver := 0, thread := none }],
            sender := none }).1 = [] ∧
      (ThreadPool.dropPool
          { workers := [{ id := 0, receiver := 0, thread := none }],
            sender := none }).2
        = Except.ok { workers := [{ id := 0, receiver := 0, thread := none }],
                      sender := none }) :=
  ⟨rfl, dropPool_take_once_idempotent livePool1 _ rfl⟩

/-- A pool whose first worker's thread has panicked while its second is fine:
the concrete input refuting C4 as stated. -/
def panickedPool : ThreadPool :=
  { workers := [{ id := 0, receiver := 0, thread := some { panicked := true } },
                Worker.new 1 0],
    sender := some () }

/-- C4 counterexample: on `panickedPool`, joining worker 0 fails, the `unwrap`
panics, and teardown never attempts to join worker 1 — the claim that a join
failure never skips the remaining workers is false of this code. -/
theorem drop_join_failure_skips_rest :
    panickedPool.workers.map Worker.id = [0, 1] ∧
    DropEvent.joinThread 1 ∉ (ThreadPool.dropPool panickedPool).1 ∧
    (ThreadPool.dropPool panickedPool).2 = Except.error "worker thread panicked" := by
  refine ⟨rfl, ?_, rfl⟩
  decide

/-- C4 amended: when the join of a worker's thread fails, the `unwrap`
re-raises the panic at once: the join loop's trace ends at the failing worker
and none of the workers after it is visited or joined. -/
theorem dropLoop_stops_at_failed_join (ws₁ : List Worker) (w : Worker)
    (ws₂ : List Worker) (hd : JoinHandle)
    (h₁ : ∀ u ∈ ws₁, ∀ k, u.thread = some k → k.panicked = false)
    (hw : w.thread = some hd) (hp : hd.panicked = true) :
    dropLoop (ws₁ ++ w :: ws₂)
      = ((dropLoop ws₁).1
          ++ [DropEvent.printShutdown w.id, DropEvent.joinThread w.id],
         Except.error "worker thread panicked") := by
  revert h₁
  induction ws₁ with
  | nil =>
    intro h₁
    rw [List.nil_append, dropLoop_cons_panicked w ws₂ hd hw hp]
    simp [dropLoop]
  | cons u t ih =>
    intro h₁
    have hu := h₁ u (List.mem_cons_self u t)
    have ht : ∀ v ∈ t, ∀ k, v.thread = some k → k.panicked = false :=
      fun v hv => h₁ v (List.mem_cons_of_mem u hv)
    rcases hut : u.thread with _ | k
    · rw [List.cons_append, dropLoop_cons_none u _ hut, dropLoop_cons_none u t hut,
        ih ht]
      simp [Except.map]
    · have hk : k.panicked = false := hu k hut
      rw [List.cons_append, dropLoop_cons_live u _ k hut hk,
        dropLoop_cons_live u t k hut hk, ih ht]
      simp [Except.map]

/-- Witness for `dropLoop_stops_at_failed_join`: a healthy worker 0, the
panicked worker 1, and a never-visited worker 2. -/
theorem dropLoop_stops_at_failed_join_witness :
    (∀ u ∈ [Worker.new 0 0], ∀ k, u.thread = some k → k.panicked = false) ∧
    dropLoop ([Worker.new 0 0]
        ++ ({ id := 1, receiver := 0, thread := some { panicked := true } } : Worker)
          :: [Worker.new 2 0])
      = ((dropLoop [Worker.new 0 0]).1
          ++ [DropEvent.printShutdown 1, DropEvent.joinThread 1],
         Except.error "worker thread panicked") :=
  ⟨by decide,
   dropLoop_stops_at_failed_join [Worker.new 0 0] _ [Worker.new 2 0] _
     (by decide) rfl rfl⟩

/-!
## Small-step semantics of the running pool

The interleaving semantics of the whole system built by `ThreadPool::new(n)`:
`n` worker threads around the `Arc<Mutex<mpsc::Receiver<Job>>>`, the channel's
queue, and the owning thread, which may call `execute` and eventually runs
`drop`.  Jobs are numbered in submission order (`nextJob` is the next number),
so `List.range s.nextJob` is the set of jobs ever submitted, and the source's
FIFO channel is the list `queue`.

A worker thread (`Worker::new`'s closure) is in one of four phases:

* `idle` — at the top of the `loop`, about to call `receiver.lock()`;
* `locked` — holding the mutex, blocked inside `recv()`;
* `running j` — `recv()` returned `Ok(j)`; the mutex guard, a temporary of the
  `let message = receiver.lock().unwrap().recv();` statement, was dropped when
  that statement ended, *before* `job()` runs;
* `done` — `recv()` returned `Err`, the loop was left, the thread returned.

The owning thread is `active` (pool alive, may call `execute`), `joining i`
(inside `drop`: the sender is down and workers `0..i` have been joined;
`join()` blocks until worker `i`'s thread has returned, hence the `done`
guard), or `finished` (`drop` returned).
-/

/-- Phase of one worker thread's loop. -/
inductive WPhase where
  | idle
  | locked
  | running (job : Nat)
  | done
deriving DecidableEq, Repr

/-- The job a worker in the given phase is currently executing (empty list if
none). -/
def WPhase.jobOf : WPhase → List Nat
  | WPhase.running j => [j]
  | _ => []

/-- The jobs currently being executed by some worker. -/
def inflight (ws : List WPhase) : List Nat :=
  (ws.map WPhase.jobOf).flatten

/-- Phase of the thread that owns the pool. -/
inductive MainPhase where
  | active
  | joining (i : Nat)
  | finished
deriving DecidableEq, Repr

/-- Global state: channel queue, whether the sender is still in the pool,
which worker holds the receiver mutex, the phase of each worker (the worker
with id `w` is entry `w`, matching `new`'s `0..size` spawn order), the log of
completed job executions as (worker id, job) pairs, the count of submitted
jobs, and the owner's phase. -/
structure SysState where
  queue : List Nat
  senderOpen : Bool
  lockOwner : Option Nat
  workers : List WPhase
  executed : List (Nat × Nat)
  nextJob : Nat
  main : MainPhase
deriving DecidableEq, Repr

/-- Transition labels: who does what. -/
inductive Label where
  | submit (job : Nat)
  | lockAcq (w : Nat)
  | recvOk (w : Nat) (job : Nat)
  | recvErr (w : Nat)
  | runJob (w : Nat) (job : Nat)
  | closeSender
  | joinWorker (w : Nat)
  | dropReturn
deriving DecidableEq, Repr

/-- One interleaved step of the system.

* `submit`: `execute` while the pool is alive appends the job to the channel.
* `lockAcq`: an idle worker wins `receiver.lock()` when nobody holds it.
* `recvOk`: the lock holder's `recv()` returns `Ok(j)` — the head of the FIFO
  queue is removed and the guard (a temporary of the `let` statement) is
  dropped in the same instant, before the job runs.
* `recvErr`: the lock holder's `recv()` returns `Err` — only possible once the
  sender is dropped and the queue is drained (mpsc semantics); the guard is
  dropped and the loop is left.  While the channel is open and empty the lock
  holder has no step: `recv()` blocks.
* `runJob`: a worker finishes `job()`: the execution is logged and the worker
  loops back to the top.
* `closeSender`: `drop` begins: `drop(self.sender.take())`, then the join loop
  starts at worker 0.
* `joinWorker`: `join()` on worker `i` returns — it blocks until that worker's
  thread has returned (`done`).
* `dropReturn`: the join loop has passed every worker; `drop` returns. -/
inductive Step : SysState → Label → SysState → Prop where
  | submit (s : SysState) (hm : s.main = MainPhase.active) (hso : s.senderOpen = true) :
      Step s (Label.submit s.nextJob)
        { s with queue := s.queue ++ [s.nextJob], nextJob := s.nextJob + 1 }
  | lockAcq (s : SysState) (w : Nat) (hw : s.workers[w]? = some WPhase.idle)
      (hl : s.lockOwner = none) :
      Step s (Label.lockAcq w)
        { s with lockOwner := some w, workers := s.workers.set w WPhase.locked }
  | recvOk (s : SysState) (w j : Nat) (rest : List Nat)
      (hw : s.workers[w]? = some WPhase.locked) (hl : s.lockOwner = some w)
      (hq : s.queue = j :: rest) :
      Step s (Label.recvOk w j)
        { s with queue := rest, lockOwner := none,
                 workers := s.workers.set w (WPhase.running j) }
  | recvErr (s : SysState) (w : Nat)
      (hw : s.workers[w]? = some WPhase.locked) (hl : s.lockOwner = some w)
      (hq : s.queue = []) (hso : s.senderOpen = false) :
      Step s (Label.recvErr w)
        { s with lockOwner := none, workers := s.workers.set w WPhase.done }
  | runJob (s : SysState) (w j : Nat)
      (hw : s.workers[w]? = some (WPhase.running j)) :
      Step s (Label.runJob w j)
        { s with executed := s.executed ++ [(w, j)],
                 workers := s.workers.set w WPhase.idle }
  | closeSender (s : SysState) (hm : s.main = MainPhase.active) :
      Step s Label.closeSender
        { s with senderOpen := false, main := MainPhase.joining 0 }
  | joinWorker (s : SysState) (i : Nat) (hm : s.main = MainPhase.joining i)
      (hw : s.workers[i]? = some WPhase.done) :
      Step s (Label.joinWorker i) { s with main := MainPhase.joining (i + 1) }
  | dropReturn (s : SysState) (hm : s.main = MainPhase.joining s.workers.length) :
      Step s Label.dropReturn { s with main := MainPhase.finished }

/-- The state right after `ThreadPool::new(n)`: empty channel, sender present,
mutex free, `n` idle workers, nothing submitted or executed, owner active. -/
def init (n : Nat) : SysState :=
  { queue := [], senderOpen := true, lockOwner := none,
    workers := List.replicate n WPhase.idle, executed := [], nextJob := 0,
    main := MainPhase.active }

/-- States reachable from `s₀` by interleaved steps. -/
inductive Reachable (s₀ : SysState) : SysState → Prop where
  | refl : Reachable s₀ s₀
  | tail {s s' : SysState} {l : Label} (h : Reachable s₀ s) (hs : Step s l s') :
      Reachable s₀ s'

/-- `inflight` on a cons. -/
theorem inflight_cons (a : WPhase) (t : List WPhase) :
    inflight (a :: t) = a.jobOf ++ inflight t := rfl

/-- No job is in flight among all-`done` (or otherwise non-`running`) workers
of the initial pool. -/
theorem inflight_replicate_idle (n : Nat) :
    inflight (List.replicate n WPhase.idle) = [] := by
  induction n with
  | zero => rfl
  | succ n ih => rw [List.replicate_succ, inflight_cons, ih]; rfl

/-- If no worker is `running`, nothing is in flight. -/
theorem inflight_eq_nil (ws : List WPhase) (h : ∀ p ∈ ws, p = WPhase.done) :
    inflight ws = [] := by
  induction ws with
  | nil => rfl
  | cons a t ih =>
    rw [inflight_cons, h a (List.mem_cons_self a t),
      ih fun p hp => h p (List.mem_cons_of_mem a hp)]
    rfl

/-- Replacing entry `i` (currently `p`) by `q` exchanges `p`'s in-flight
contribution for `q`'s, counted at every job. -/
theorem count_inflight_set (ws : List WPhase) (i : Nat) (p q : WPhase)
    (h : ws[i]? = some p) (a : Nat) :
    (inflight (ws.set i q)).count a + (p.jobOf).count a
      = (inflight ws).count a + (q.jobOf).count a := by
  induction ws generalizing i with
  | nil => simp at h
  | cons b t ih =>
    cases i with
    | zero =>
      have hb : b = p := by simpa using h
      subst hb
      show (inflight (q :: t)).count a + _ = _
      rw [inflight_cons, inflight_cons, List.count_append, List.count_append]
      omega
    | succ i =>
      have ht : t[i]? = some p := by simpa using h
      have hih := ih i ht
      show (inflight (b :: t.set i q)).count a + _ = _
      rw [inflight_cons, inflight_cons, List.count_append, List.count_append]
      omega

theorem jobOf_idle : WPhase.idle.jobOf = [] := rfl

theorem jobOf_locked : WPhase.locked.jobOf = [] := rfl

theorem jobOf_done : WPhase.done.jobOf = [] := rfl

theorem jobOf_running (j : Nat) : (WPhase.running j).jobOf = [j] := rfl

/-- The inductive invariant of the system started by `ThreadPool::new(n)`:

* the worker count never changes;
* the sender is present exactly while the owner has not started `drop`;
* the mutex owner is always a worker blocked in `recv`;
* a worker can only have terminated after the sender was dropped;
* once the owner is joining worker `i`, workers before `i` have terminated,
  and when `drop` has returned every worker has;
* once every worker (of at least one) has terminated the queue is empty;
* accounting: the submitted jobs `0..nextJob` are exactly the executed ones,
  the in-flight ones and the queued ones, counted with multiplicity. -/
structure Inv (n : Nat) (s : SysState) : Prop where
  wlen : s.workers.length = n
  senderIff : s.senderOpen = true ↔ s.main = MainPhase.active
  lockLocked : ∀ w, s.lockOwner = some w → s.workers[w]? = some WPhase.locked
  doneClosed : ∀ p ∈ s.workers, p = WPhase.done → s.senderOpen = false
  joinedDone : ∀ i, s.main = MainPhase.joining i →
    ∀ k, k < i → s.workers[k]? = some WPhase.done
  finishedDone : s.main = MainPhase.finished → ∀ p ∈ s.workers, p = WPhase.done
  drainDone : 0 < n → (∀ p ∈ s.workers, p = WPhase.done) → s.queue = []
  account : ∀ a, (List.range s.nextJob).count a
      = (s.executed.map Prod.snd).count a + (inflight s.workers).count a
        + s.queue.count a

/-- The invariant holds right after construction. -/
theorem inv_init (n : Nat) : Inv n (init n) where
  wlen := List.length_replicate n _
  senderIff := by simp [init]
  lockLocked := by intro w h; simp [init] at h
  doneClosed := by
    intro p hp hd
    have hpi : p = WPhase.idle := List.eq_of_mem_replicate hp
    rw [hpi] at hd
    exact WPhase.noConfusion hd
  joinedDone := by intro i h; simp [init] at h
  finishedDone := by intro h; simp [init] at h
  drainDone := fun _ _ => rfl
  account := by intro a; simp [init, inflight_replicate_idle]

/-- Every step of the system preserves the invariant. -/
theorem inv_step {n : Nat} {s s' : SysState} {l : Label}
    (hi : Inv n s) (hstep : Step s l s') : Inv n s' := by
  obtain ⟨wlen, senderIff, lockLocked, doneClosed, joinedDone, finishedDone,
    drainDone, account⟩ := hi
  cases hstep with
  | submit hm hso =>
    refine ⟨wlen, senderIff, lockLocked, doneClosed, joinedDone, finishedDone, ?_, ?_⟩
    · intro hn hall
      have hpos : 0 < s.workers.length := by omega
      obtain ⟨p, hp⟩ := List.exists_mem_of_length_pos hpos
      have := doneClosed p hp (hall p hp)
      rw [hso] at this
      exact Bool.noConfusion this
    · intro a
      have h := account a
      show (List.range (s.nextJob + 1)).count a
          = (s.executed.map Prod.snd).count a + (inflight s.workers).count a
            + (s.queue ++ [s.nextJob]).count a
      rw [List.range_succ, List.count_append, List.count_append]
      omega
  | lockAcq w hw hl =>
    obtain ⟨hwlt, -⟩ := List.getElem?_eq_some.mp hw
    refine ⟨?_, senderIff, ?_, ?_, ?_, ?_, ?_, ?_⟩
    · show (s.workers.set w WPhase.locked).length = n
      rw [List.length_set]; exact wlen
    · intro v hv
      have hvw : w = v := by simpa using hv
      subst hvw
      exact List.getElem?_set_self hwlt
    · intro p hp hd
      rcases List.mem_or_eq_of_mem_set hp with h | h
      · exact doneClosed p h hd
      · rw [h] at hd; exact WPhase.noConfusion hd
    · intro i hm' k hk
      have hdk := joinedDone i hm' k hk
      by_cases he : w = k
      · subst he
        rw [hw] at hdk
        exact absurd hdk (by simp)
      · rw [List.getElem?_set_ne he]
        exact hdk
    · intro hf
      have hmem : WPhase.idle ∈ s.workers := by
        rw [List.mem_iff_getElem?]; exact ⟨w, hw⟩
      exact absurd (finishedDone hf _ hmem) (by simp)
    · intro hn hall
      have hmem : WPhase.locked ∈ s.workers.set w WPhase.locked :=
        List.mem_set s.workers w hwlt WPhase.locked
      exact absurd (hall _ hmem) (by simp)
    · intro a
      have h := account a
      have hset := count_inflight_set s.workers w WPhase.idle WPhase.locked hw a
      rw [jobOf_idle, jobOf_locked] at hset
      show (List.range s.nextJob).count a
          = (s.executed.map Prod.snd).count a
            + (inflight (s.workers.set w WPhase.locked)).count a + s.queue.count a
      omega
  | recvOk w j rest hw hl hq =>
    obtain ⟨hwlt, -⟩ := List.getElem?_eq_some.mp hw
    refine ⟨?_, senderIff, ?_, ?_, ?_, ?_, ?_, ?_⟩
    · show (s.workers.set w (WPhase.running j)).length = n
      rw [List.length_set]; exact wlen
    · intro v hv
      exact Option.noConfusion hv
    · intro p hp hd
      rcases List.mem_or_eq_of_mem_set hp with h | h
      · exact doneClosed p h hd
      · rw [h] at hd; exact WPhase.noConfusion hd
    · intro i hm' k hk
      have hdk := joinedDone i hm' k hk
      by_cases he : w = k
      · subst he
        rw [hw] at hdk
        exact absurd hdk (by simp)
      · rw [List.getElem?_set_ne he]
        exact hdk
    · intro hf
      have hmem : WPhase.locked ∈ s.workers := by
        rw [List.mem_iff_getElem?]; exact ⟨w, hw⟩
      exact absurd (finishedDone hf _ hmem) (by simp)
    · intro hn hall
      have hmem : WPhase.running j ∈ s.workers.set w (WPhase.running j) :=
        List.mem_set s.workers w hwlt (WPhase.running j)
      exact absurd (hall _ hmem) (by simp)
    · intro a
      have h := account a
      have hset := count_inflight_set s.workers w WPhase.locked (WPhase.running j) hw a
      rw [jobOf_locked, jobOf_running] at hset
      simp only [List.count_nil] at hset
      have hqc : s.queue.count a = ([j] ++ rest).count a := by rw [hq]; rfl
      rw [List.count_append] at hqc
      show (List.range s.nextJob).count a
          = (s.executed.map Prod.snd).count a
            + (inflight (s.workers.set w (WPhase.running j))).count a + rest.count a
      omega
  | recvErr w hw hl hq hso =>
    obtain ⟨hwlt, -⟩ := List.getElem?_eq_some.mp hw
    refine ⟨?_, senderIff, ?_, ?_, ?_, ?_, ?_, ?_⟩
    · show (s.workers.set w WPhase.done).length = n
      rw [List.length_set]; exact wlen
    · intro v hv
      exact Option.noConfusion hv
    · intro p hp hd
      exact hso
    · intro i hm' k hk
      have hdk := joinedDone i hm' k hk
      by_cases he : w = k
      · subst he
        exact List.getElem?_set_self hwlt
      · rw [List.getElem?_set_ne he]
        exact hdk
    · intro hf
      have hmem : WPhase.locked ∈ s.workers := by
        rw [List.mem_iff_getElem?]; exact ⟨w, hw⟩
      exact absurd (finishedDone hf _ hmem) (by simp)
    · intro hn hall
      exact hq
    · intro a
      have h := account a
      have hset := count_inflight_set s.workers w WPhase.locked WPhase.done hw a
      rw [jobOf_locked, jobOf_done] at hset
      show (List.range s.nextJob).count a
          = (s.executed.map Prod.snd).count a
            + (inflight (s.workers.set w WPhase.done)).count a + s.queue.count a
      omega
  | runJob w j hw =>
    obtain ⟨hwlt, -⟩ := List.getElem?_eq_some.mp hw
    refine ⟨?_, senderIff, ?_, ?_, ?_, ?_, ?_, ?_⟩
    · show (s.workers.set w WPhase.idle).length = n
      rw [List.length_set]; exact wlen
    · intro v hv
      have hvl := lockLocked v hv
      by_cases he : w = v
      · subst he
        rw [hw] at hvl
        exact absurd hvl (by simp)
      · rw [List.getElem?_set_ne he]
        exact hvl
    · intro p hp hd
      rcases List.mem_or_eq_of_mem_set hp with h | h
      · exact doneClosed p h hd
      · rw [h] at hd; exact WPhase.noConfusion hd
    · intro i hm' k hk
      have hdk := joinedDone i hm' k hk
      by_cases he : w = k
      · subst he
        rw [hw] at hdk
        exact absurd hdk (by simp)
      · rw [List.getElem?_set_ne he]
        exact hdk
    · intro hf
      have hmem : WPhase.running j ∈ s.workers := by
        rw [List.mem_iff_getElem?]; exact ⟨w, hw⟩
      exact absurd (finishedDone hf _ hmem) (by simp)
    · intro hn hall
      have hmem : WPhase.idle ∈ s.workers.set w WPhase.idle :=
        List.mem_set s.workers w hwlt WPhase.idle
      exact absurd (hall _ hmem) (by simp)
    · intro a
      have h := account a
      have hset := count_inflight_set s.workers w (WPhase.running j) WPhase.idle hw a
      rw [jobOf_running, jobOf_idle] at hset
      simp only [List.count_nil] at hset
      have hmap : (s.executed ++ [(w, j)]).map Prod.snd
          = s.executed.map Prod.snd ++ [j] := by
        rw [List.map_append]; rfl
      show (List.range s.nextJob).count a
          = ((s.executed ++ [(w, j)]).map Prod.snd).count a
            + (inflight (s.workers.set w WPhase.idle)).count a + s.queue.count a
      rw [hmap, List.count_append]
      omega
  | closeSender hm =>
    refine ⟨wlen, ?_, lockLocked, ?_, ?_, ?_, ?_, account⟩
    · exact ⟨fun h => Bool.noConfusion h, fun h => MainPhase.noConfusion h⟩
    · intro p hp hd
      rfl
    · intro i hj k hk
      have h0 : (0 : Nat) = i := by injection hj
      rw [← h0] at hk
      exact absurd hk (Nat.not_lt_zero k)
    · intro hf
      exact MainPhase.noConfusion hf
    · intro hn hall
      exact drainDone hn hall
  | joinWorker i hm hw =>
    refine ⟨wlen, ?_, lockLocked, doneClosed, ?_, ?_, drainDone, account⟩
    · constructor
      · intro h
        have ha := senderIff.mp h
        rw [hm] at ha
        exact MainPhase.noConfusion ha
      · intro h
        exact MainPhase.noConfusion h
    · intro i' hj k hk
      have hii : i + 1 = i' := by injection hj
      rw [← hii] at hk
      by_cases hki : k < i
      · exact joinedDone i hm k hki
      · have : k = i := by omega
        rw [this]
        exact hw
    · intro hf
      exact MainPhase.noConfusion hf
  | dropReturn hm =>
    refine ⟨wlen, ?_, lockLocked, doneClosed, ?_, ?_, drainDone, account⟩
    · constructor
      · intro h
        have ha := senderIff.mp h
        rw [hm] at ha
        exact MainPhase.noConfusion ha
      · intro h
        exact MainPhase.noConfusion h
    · intro i' hj
      exact MainPhase.noConfusion hj
    · intro _ p hp
      rcases List.mem_iff_getElem?.mp hp with ⟨k, hk⟩
      obtain ⟨hklt, -⟩ := List.getElem?_eq_some.mp hk
      have hdk := joinedDone s.workers.length hm k hklt
      rw [hk] at hdk
      have := Option.some.inj hdk
      exact this

/-- The invariant holds in every reachable state. -/
theorem inv_reachable (n : Nat) (s : SysState) (h : Reachable (init n) s) :
    Inv n s := by
  induction h with
  | refl => exact inv_init n
  | tail _ hs ih => exact inv_step ih hs

/-! ## Claims about the concurrent behaviour -/

/-- C1: in every complete run of a pool built by `new(n)` (the owner's `drop`
has returned), the queue is drained, nothing is still in flight, and the log
of executions contains each submitted job `0, ..., nextJob-1` exactly once:
every job submitted before shutdown began was dequeued and run to completion
by exactly one worker — never zero times, never twice — before teardown
returned. -/
theorem pool_runs_each_job_exactly_once_and_drains (n : Nat) (hn : 0 < n)
    (s : SysState) (hr : Reachable (init n) s)
    (hf : s.main = MainPhase.finished) :
    s.queue = [] ∧ inflight s.workers = [] ∧
    (s.executed.map Prod.snd).Perm (List.range s.nextJob) ∧
    ∀ j, j < s.nextJob → (s.executed.map Prod.snd).count j = 1 := by
  have hi := inv_reachable n s hr
  have hall := hi.finishedDone hf
  have hq := hi.drainDone hn hall
  have hin := inflight_eq_nil s.workers hall
  refine ⟨hq, hin, ?_, ?_⟩
  · rw [List.perm_iff_count]
    intro a
    have h := hi.account a
    rw [hq, hin] at h
    simp only [List.count_nil] at h
    omega
  · intro j hj
    have h := hi.account j
    rw [hq, hin] at h
    simp only [List.count_nil] at h
    have hr1 : (List.range s.nextJob).count j = 1 :=
      List.count_eq_one_of_mem (List.nodup_range s.nextJob) (List.mem_range.mpr hj)
    omega

/-- C2: no worker ever executes a job while it holds the mutex on the shared
receiving endpoint: the guard returned by `receiver.lock()` is a temporary of
the `let message = ...` statement and is dropped when `recv` returns, before
`job()` is called, so in every reachable state a worker in phase `running j`
is not the lock owner. -/
theorem no_job_runs_while_holding_lock (n : Nat) (s : SysState)
    (hr : Reachable (init n) s) (w j : Nat)
    (hw : s.workers[w]? = some (WPhase.running j)) :
    s.lockOwner ≠ some w := by
  intro hlock
  have hi := inv_reachable n s hr
  have hlk := hi.lockLocked w hlock
  rw [hw] at hlk
  simp at hlk

/-- C9: the shape of the worker loop, step by step: a successful dequeue
(`recvOk`) leaves the worker in `running j`; the only transition out of
`running j` is the worker's own `runJob`, which logs exactly the one execution
`(w, j)` — synchronously, on that worker — and returns the worker to the top
of the loop (`idle`); the closed-channel signal (`recvErr`) sends the worker
to `done` (the `break`, after which the thread function returns); and `done`
is absorbing — no step of any thread ever changes it. -/
theorem worker_loop_shape (s : SysState) (l : Label) (s' : SysState)
    (hstep : Step s l s') (w : Nat) :
    (∀ j, l = Label.recvOk w j → s'.workers[w]? = some (WPhase.running j)) ∧
    (∀ j, l = Label.runJob w j → s.workers[w]? = some (WPhase.running j) ∧
      s'.workers[w]? = some WPhase.idle ∧
      s'.executed = s.executed ++ [(w, j)]) ∧
    (l = Label.recvErr w → s'.workers[w]? = some WPhase.done) ∧
    (s.workers[w]? = some WPhase.done → s'.workers[w]? = some WPhase.done) ∧
    (∀ j, s.workers[w]? = some (WPhase.running j) →
      s'.workers[w]? = some (WPhase.running j) ∨ l = Label.runJob w j) := by
  cases hstep with
  | submit hm hso =>
    exact ⟨(fun j hlj => nomatch hlj), (fun j hlj => nomatch hlj),
      (fun hlj => nomatch hlj), fun h => h, fun j h => Or.inl h⟩
  | lockAcq v hw' hl =>
    refine ⟨(fun j hlj => nomatch hlj), (fun j hlj => nomatch hlj),
      (fun hlj => nomatch hlj), ?_, ?_⟩
    · intro hdone
      by_cases he : v = w
      · subst he
        rw [hw'] at hdone
        simp at hdone
      · show (s.workers.set v WPhase.locked)[w]? = some WPhase.done
        rw [List.getElem?_set_ne he]
        exact hdone
    · intro j hrun
      by_cases he : v = w
      · subst he
        rw [hw'] at hrun
        simp at hrun
      · left
        show (s.workers.set v WPhase.locked)[w]? = some (WPhase.running j)
        rw [List.getElem?_set_ne he]
        exact hrun
  | recvOk v j' rest hw' hl hq =>
    obtain ⟨hvlt, -⟩ := List.getElem?_eq_some.mp hw'
    refine ⟨?_, (fun j hlj => nomatch hlj), (fun hlj => nomatch hlj), ?_, ?_⟩
    · intro j hlj
      have hv : v = w := by injection hlj
      have hj : j' = j := by injection hlj
      subst hv; subst hj
      exact List.getElem?_set_self hvlt
    · intro hdone
      by_cases he : v = w
      · subst he
        rw [hw'] at hdone
        simp at hdone
      · show (s.workers.set v (WPhase.running j'))[w]? = some WPhase.done
        rw [List.getElem?_set_ne he]
        exact hdone
    · intro j hrun
      by_cases he : v = w
      · subst he
        rw [hw'] at hrun
        simp at hrun
      · left
        show (s.workers.set v (WPhase.running j'))[w]? = some (WPhase.running j)
        rw [List.getElem?_set_ne he]
        exact hrun
  | recvErr v hw' hl hq hso =>
    obtain ⟨hvlt, -⟩ := List.getElem?_eq_some.mp hw'
    refine ⟨(fun j hlj => nomatch hlj), (fun j hlj => nomatch hlj), ?_, ?_, ?_⟩
    · intro hlj
      have hv : v = w := by injection hlj
      subst hv
      exact List.getElem?_set_self hvlt
    · intro hdone
      by_cases he : v = w
      · subst he
        exact List.getElem?_set_self hvlt
      · show (s.workers.set v WPhase.done)[w]? = some WPhase.done
        rw [List.getElem?_set_ne he]
        exact hdone
    · intro j hrun
      by_cases he : v = w
      · subst he
        rw [hw'] at hrun
        simp at hrun
      · left
        show (s.workers.set v WPhase.done)[w]? = some (WPhase.running j)
        rw [List.getElem?_set_ne he]
        exact hrun
  | runJob v j' hw' =>
    obtain ⟨hvlt, -⟩ := List.getElem?_eq_some.mp hw'
    refine ⟨(fun j hlj => nomatch hlj), ?_, (fun hlj => nomatch hlj), ?_, ?_⟩
    · intro j hlj
      have hv : v = w := by injection hlj
      have hj : j' = j := by injection hlj
      subst hv; subst hj
      exact ⟨hw', List.getElem?_set_self hvlt, rfl⟩
    · intro hdone
      by_cases he : v = w
      · subst he
        rw [hw'] at hdone
        simp at hdone
      · show (s.workers.set v WPhase.idle)[w]? = some WPhase.done
        rw [List.getElem?_set_ne he]
        exact hdone
    · intro j hrun
      by_cases he : v = w
      · subst he
        rw [hw'] at hrun
        have : j' = j := by simpa using hrun
        subst this
        right
        rfl
      · left
        show (s.workers.set v WPhase.idle)[w]? = some (WPhase.running j)
        rw [List.getElem?_set_ne he]
        exact hrun
  | closeSender hm =>
    exact ⟨(fun j hlj => nomatch hlj), (fun j hlj => nomatch hlj),
      (fun hlj => nomatch hlj), fun h => h, fun j h => Or.inl h⟩
  | joinWorker i hm hw' =>
    exact ⟨(fun j hlj => nomatch hlj), (fun j hlj => nomatch hlj),
      (fun hlj => nomatch hlj), fun h => h, fun j h => Or.inl h⟩
  | dropReturn hm =>
    exact ⟨(fun j hlj => nomatch hlj), (fun j hlj => nomatch hlj),
      (fun hlj => nomatch hlj), fun h => h, fun j h => Or.inl h⟩

/-! ## A concrete complete run of a size-1 pool (used by the witnesses)

One job is submitted, dequeued and run; then the owner drops the pool: the
sender is closed, the worker observes the closed channel and terminates, is
joined, and `drop` returns. -/

def rs0 : SysState := ⟨[], true, none, [WPhase.idle], [], 0, MainPhase.active⟩

def rs1 : SysState := ⟨[0], true, none, [WPhase.idle], [], 1, MainPhase.active⟩

def rs2 : SysState := ⟨[0], true, some 0, [WPhase.locked], [], 1, MainPhase.active⟩

def rs3 : SysState := ⟨[], true, none, [WPhase.running 0], [], 1, MainPhase.active⟩

def rs4 : SysState := ⟨[], true, none, [WPhase.idle], [(0, 0)], 1, MainPhase.active⟩

def rs5 : SysState :=
  ⟨[], false, none, [WPhase.idle], [(0, 0)], 1, MainPhase.joining 0⟩

def rs6 : SysState :=
  ⟨[], false, some 0, [WPhase.locked], [(0, 0)], 1, MainPhase.joining 0⟩

def rs7 : SysState :=
  ⟨[], false, none, [WPhase.done], [(0, 0)], 1, MainPhase.joining 0⟩

def rs8 : SysState :=
  ⟨[], false, none, [WPhase.done], [(0, 0)], 1, MainPhase.joining 1⟩

def runFinal : SysState :=
  ⟨[], false, none, [WPhase.done], [(0, 0)], 1, MainPhase.finished⟩

theorem step_rs2_rs3 : Step rs2 (Label.recvOk 0 0) rs3 :=
  Step.recvOk rs2 0 0 [] rfl rfl rfl

theorem reach_rs3 : Reachable (init 1) rs3 :=
  Reachable.tail
    (Reachable.tail
      (Reachable.tail Reachable.refl (Step.submit rs0 rfl rfl))
      (Step.lockAcq rs1 0 rfl rfl))
    step_rs2_rs3

theorem reach_runFinal : Reachable (init 1) runFinal :=
  Reachable.tail
    (Reachable.tail
      (Reachable.tail
        (Reachable.tail
          (Reachable.tail
            (Reachable.tail reach_rs3 (Step.runJob rs3 0 0 rfl))
            (Step.closeSender rs4 rfl))
          (Step.lockAcq rs5 0 rfl rfl))
        (Step.recvErr rs6 0 rfl rfl rfl rfl))
      (Step.joinWorker rs7 0 rfl rfl))
    (Step.dropReturn rs8 rfl)

/-- Witness for `pool_runs_each_job_exactly_once_and_drains`: the complete
size-1 run above, with its one job executed exactly once. -/
theorem pool_runs_each_job_exactly_once_and_drains_witness :
    (0 < 1 ∧ Reachable (init 1) runFinal ∧ runFinal.main = MainPhase.finished) ∧
    (runFinal.queue = [] ∧ inflight runFinal.workers = [] ∧
      (runFinal.executed.map Prod.snd).Perm (List.range runFinal.nextJob) ∧
      ∀ j, j < runFinal.nextJob →
        (runFinal.executed.map Prod.snd).count j = 1) :=
  ⟨⟨Nat.one_pos, reach_runFinal, rfl⟩,
   pool_runs_each_job_exactly_once_and_drains 1 Nat.one_pos runFinal
     reach_runFinal rfl⟩

/-- Witness for `no_job_runs_while_holding_lock`: in state `rs3` worker 0 is
running job 0 and the mutex is free. -/
theorem no_job_runs_while_holding_lock_witness :
    (Reachable (init 1) rs3 ∧ rs3.workers[0]? = some (WPhase.running 0)) ∧
    rs3.lockOwner ≠ some 0 :=
  ⟨⟨reach_rs3, rfl⟩, no_job_runs_while_holding_lock 1 rs3 reach_rs3 0 0 rfl⟩

/-- Witness for `worker_loop_shape`: the dequeue step `rs2 → rs3` of the run,
instantiated at worker 0. -/
theorem worker_loop_shape_witness :
    Step rs2 (Label.recvOk 0 0) rs3 ∧
    rs3.workers[0]? = some (WPhase.running 0) :=
  ⟨step_rs2_rs3,
   (worker_loop_shape rs2 (Label.recvOk 0 0) rs3 step_rs2_rs3 0).1 0 rfl⟩

end ThreadPoolVerif
